import Mathlib

/-!
A verification development for the WAMP v2 client core of wamprx.js
(`src/wamp/wamp.ts` and `src/utils/rxdivide.ts`), as a shallow embedding.

Modelling conventions:
- A JSON value is the inductive `Json`; JavaScript objects are ordered
  key/value lists.
- A wire message before trimming is a `List (Option Json)`: `none` models a
  JavaScript `undefined` entry (an absent optional field), `some v` a present
  field.  `JSON.stringify` renders an `undefined` array element as `null`,
  which `serializeElem` captures.
- Reactive streams are modelled extensionally: an observable consumed by the
  session becomes the list of events it delivers, in arrival order, and the
  operators applied to it become list functions translated operator by
  operator from the source.
-/

namespace WampRx

/-- JSON values as carried on the wire. -/
inductive Json where
  | null : Json
  | bool : Bool → Json
  | num : Int → Json
  | str : String → Json
  | arr : List Json → Json
  | obj : List (String × Json) → Json
deriving Repr

/-- Source `trimArray` (wamp.ts): pop entries from the tail while they are
`undefined`.  The JavaScript loop pops from the end; here that is dropping
the `none` entries from the front of the reversed list. -/
def trimArray {α : Type} (a : List (Option α)) : List (Option α) :=
  (a.reverse.dropWhile Option.isNone).reverse

/-- One array element under `JSON.stringify`: a present value serializes to
itself, an `undefined` element of an array serializes to `null`. -/
def serializeElem (o : Option Json) : Json := o.getD Json.null

/-- Source `send` (wamp.ts): the frame actually emitted for a message is its
trimmed array, serialized. -/
def encodeMsg (m : List (Option Json)) : List Json :=
  (trimArray m).map serializeElem

/-- The options object sent with every outbound CALL (wamp.ts `call`). -/
def callOptions : Json := Json.obj [("receive_progress", Json.bool true)]

/-- The CALL message array built by `call` (wamp.ts line 267) before
trimming: tag 48, request id, options, uri, optional args, optional dict. -/
def callMsg (reqId : Int) (uri : String) (args dict : Option Json) :
    List (Option Json) :=
  [some (Json.num 48), some (Json.num reqId), some callOptions,
   some (Json.str uri), args, dict]

/-- The CANCEL message sent when a live call subscription is released
(wamp.ts line 285): tag 49, request id, mode kill. -/
def cancelMsg (reqId : Int) : List (Option Json) :=
  [some (Json.num 49), some (Json.num reqId),
   some (Json.obj [("mode", Json.str "kill")])]

/-- A list of optional fields has no trailing absent entry. -/
def noTrailingAbsent {α : Type} (m : List (Option α)) : Bool :=
  match m.getLast? with
  | some none => false
  | _ => true

theorem head_dropWhile_false {α : Type} (p : α → Bool) :
    ∀ (l : List α) (x : α), (l.dropWhile p).head? = some x → p x = false := by
  intro l
  induction l with
  | nil => intro x h; simp [List.dropWhile] at h
  | cons y ys ih =>
    intro x h
    by_cases hp : p y = true
    · rw [List.dropWhile_cons_of_pos hp] at h
      exact ih x h
    · rw [List.dropWhile_cons_of_neg hp] at h
      simp at h
      subst h
      exact eq_false_of_ne_true hp

theorem trimArray_no_trailing {α : Type} (a : List (Option α)) :
    noTrailingAbsent (trimArray a) = true := by
  unfold noTrailingAbsent trimArray
  cases hl : (a.reverse.dropWhile Option.isNone).reverse.getLast? with
  | none => rfl
  | some o =>
    cases o with
    | some v => rfl
    | none =>
      rw [List.getLast?_reverse] at hl
      have := head_dropWhile_false Option.isNone a.reverse none hl
      simp at this

/-- Claim C7: every encoded outbound frame contains no trailing absent field;
in particular a CALL with no args and no dict is emitted as the four-element
array tag, request id, options, uri. -/
theorem call_frames_have_no_trailing_absent
    (a : List (Option Json)) (reqId : Int) (uri : String) :
    noTrailingAbsent (trimArray a) = true ∧
    encodeMsg (callMsg reqId uri none none) =
      [Json.num 48, Json.num reqId, callOptions, Json.str uri] := by
  refine ⟨trimArray_no_trailing a, ?_⟩
  simp [encodeMsg, callMsg, trimArray, serializeElem, List.dropWhile]

/-- Claim C10: only trailing absent fields are elided.  Any message whose last
entry is present is left untouched by `trimArray`, and a
`call(uri, undefined, dict)` with `dict` present is emitted with an interior
`null` in the args position. -/
theorem interior_absent_field_not_elided
    (xs : List (Option Json)) (v : Json) (reqId : Int) (uri : String)
    (d : Json) :
    trimArray (xs ++ [some v]) = xs ++ [some v] ∧
    encodeMsg (callMsg reqId uri none (some d)) =
      [Json.num 48, Json.num reqId, callOptions, Json.str uri,
       Json.null, d] := by
  constructor
  · simp [trimArray, List.dropWhile]
  · simp [encodeMsg, callMsg, trimArray, serializeElem, List.dropWhile]

/-- A RESULT frame routed to one call's request id (wamp.ts type
`WampResultMsg`).  `progress` is the truthiness of `details.progress`;
`args` and `dict` the optional payload fields. -/
structure ResultMsg where
  reqId : Int
  progress : Bool
  args : Option (List Json)
  dict : Option Json

/-- The rx `takeWhile(p, true)` operator: emit while `p` holds and also emit
the first element where it fails, then complete. -/
def takeWhileIncl {α : Type} (p : α → Bool) : List α → List α
  | [] => []
  | x :: xs => if p x then x :: takeWhileIncl p xs else [x]

/-- The `filter` predicate of `call` (wamp.ts line 293): keep a frame when it
is progressive, or when its args payload is present and non-empty. -/
def resultKeep (m : ResultMsg) : Bool :=
  m.progress ||
    (match m.args with
     | some l => !l.isEmpty
     | none => false)

/-- The `map` step of `call` (wamp.ts line 294): a frame's emitted payload is
its args and dict. -/
def resultPayload (m : ResultMsg) : Option (List Json) × Option Json :=
  (m.args, m.dict)

/-- The result pipeline of `call` (wamp.ts lines 270-295) applied to the
RESULT frames arriving for the call's request id, in order: inclusive
takeWhile on `progress`, then the payload filter, then the payload map.  The
output list is the sequence of payloads the consumer observes before the
stream completes. -/
def callPayloads (frames : List ResultMsg) :
    List (Option (List Json) × Option Json) :=
  ((takeWhileIncl (fun m => m.progress) frames).filter resultKeep).map
    resultPayload

/-- Whether an optional args payload is present and non-empty. -/
def hasArgsPayload : Option (List Json) → Bool
  | some (_ :: _) => true
  | _ => false

/-- Claim C1: each progressive RESULT is emitted as a payload; a terminal
RESULT with present non-empty args is emitted as the final payload and the
stream completes (frames arriving after it are ignored); a terminal RESULT
with absent or empty args completes the stream without a final payload. -/
theorem call_emits_progress_then_optional_final
    (rid : Int) (ps : List (Option (List Json) × Option Json))
    (targs : Option (List Json)) (tdict : Option Json)
    (rest : List ResultMsg) :
    callPayloads
      (ps.map (fun p => ⟨rid, true, p.1, p.2⟩) ++ ⟨rid, false, targs, tdict⟩ :: rest) =
      ps ++ (if hasArgsPayload targs then [(targs, tdict)] else []) := by
  induction ps with
  | nil =>
    cases targs with
    | none => simp [callPayloads, takeWhileIncl, resultKeep, resultPayload, hasArgsPayload]
    | some l =>
      cases l with
      | nil => simp [callPayloads, takeWhileIncl, resultKeep, resultPayload, hasArgsPayload]
      | cons x xs =>
        simp [callPayloads, takeWhileIncl, resultKeep, resultPayload, hasArgsPayload]
  | cons p ps ih =>
    simpa [callPayloads, takeWhileIncl, resultKeep, resultPayload] using ih

/-- An event observed by one call subscription after the CALL frame was sent:
a RESULT frame for its request id, a matching ERROR frame, or the consumer
releasing the subscription. -/
inductive CallEvent where
  | result (m : ResultMsg)
  | errorFrame
  | release

/-- The state of the hook installed by `call` (wamp.ts lines 277-289): the
`complete` flag is set by the terminal-frame and error handlers. -/
structure HookState where
  complete : Bool

/-- The `onUnsubscribed` handler of the hook: send CANCEL with mode kill
unless the call already terminated. -/
def hookOnUnsubscribed (reqId : Int) (st : HookState) : List (List Json) :=
  if st.complete then [] else [encodeMsg (cancelMsg reqId)]

/-- The CANCEL frames sent by one call subscription over its lifetime.  A
progressive RESULT passes through; a terminal RESULT runs `onComplete` (which
sets the flag) and then the teardown runs `onUnsubscribed`; an ERROR frame
runs `onError` likewise; a release of a live subscription runs
`onUnsubscribed` with the current flag.  Events after the subscription ended
are ignored. -/
def callCancelFrames (reqId : Int) :
    List CallEvent → HookState → List (List Json)
  | [], _ => []
  | .result m :: rest, st =>
    if m.progress then callCancelFrames reqId rest st
    else hookOnUnsubscribed reqId ⟨true⟩
  | .errorFrame :: _, _ => hookOnUnsubscribed reqId ⟨true⟩
  | .release :: _, st => hookOnUnsubscribed reqId st

/-- Claim C4: releasing the consumer of a call stream sends
CANCEL(reqId, mode kill) exactly when no terminal frame arrived before the
release; in particular a release after the terminal RESULT or after the
matching ERROR sends no CANCEL. -/
theorem cancel_sent_iff_released_before_terminal
    (reqId : Int) (pre : List ResultMsg) (post mid : List CallEvent) :
    callCancelFrames reqId (pre.map .result ++ .release :: post) ⟨false⟩ =
      (if pre.all (fun m => m.progress) then [encodeMsg (cancelMsg reqId)]
       else []) ∧
    callCancelFrames reqId (pre.map .result ++ .errorFrame :: mid) ⟨false⟩ =
      [] := by
  induction pre with
  | nil => simp [callCancelFrames, hookOnUnsubscribed]
  | cons m pre ih =>
    by_cases hm : m.progress = true
    · simpa [callCancelFrames, hm] using ih
    · simp [callCancelFrames, hm, hookOnUnsubscribed, List.all_cons]

/-- The request id state of a session (wamp.ts line 256): `nextReqId` starts
at the caller-supplied seed, else at a random value. -/
structure SessionIds where
  nextReqId : Nat

/-- One outbound request allocates `++nextReqId`: the counter is incremented
and the incremented value is the request id (wamp.ts lines 266, 304, 354,
375, 389, 399 for CALL, REGISTER, UNREGISTER, PUBLISH, SUBSCRIBE,
UNSUBSCRIBE). -/
def allocReqId (s : SessionIds) : Nat × SessionIds :=
  (s.nextReqId + 1, ⟨s.nextReqId + 1⟩)

/-- The request ids of `n` consecutive outbound requests of one session. -/
def allocRun : Nat → SessionIds → List Nat
  | 0, _ => []
  | n + 1, s =>
    (allocReqId s).1 :: allocRun n (allocReqId s).2

theorem allocRun_mem_gt :
    ∀ (n seed : Nat), ∀ x ∈ allocRun n ⟨seed⟩, seed < x := by
  intro n
  induction n with
  | zero => intro seed x hx; simp [allocRun] at hx
  | succ n ih =>
    intro seed x hx
    simp only [allocRun, allocReqId, List.mem_cons] at hx
    rcases hx with rfl | hx
    · omega
    · have := ih (seed + 1) x hx
      omega

/-- Claim C5: within one session the outbound request ids are strictly
increasing (hence pairwise distinct), and the first id allocated after the
seed is the incremented seed. -/
theorem request_ids_strictly_increasing (n seed : Nat) :
    (allocRun n ⟨seed⟩).Pairwise (· < ·) ∧
    (allocRun n ⟨seed⟩).Nodup ∧
    (allocRun (n + 1) ⟨seed⟩).head? = some (seed + 1) := by
  have hp : ∀ (m s : Nat), (allocRun m ⟨s⟩).Pairwise (· < ·) := by
    intro m
    induction m with
    | zero => intro s; simp [allocRun]
    | succ m ih =>
      intro s
      simp only [allocRun, allocReqId]
      exact List.Pairwise.cons (fun x hx => allocRun_mem_gt m (s + 1) x hx) (ih (s + 1))
  refine ⟨hp n seed, ?_, ?_⟩
  · exact (hp n seed).imp (fun h => Nat.ne_of_lt h)
  · simp [allocRun, allocReqId]

/-- A callee-path error value: the fields of the JavaScript error object read
by `sendError` (wamp.ts lines 320-321). -/
structure WErr where
  uri : Option String
  message : Option String

/-- The raw error object as a JSON value, used when `sendError` falls back to
wrapping the whole error (the branch where `message` is absent). -/
def errObjJson (e : WErr) : Json :=
  Json.obj
    ((match e.uri with
      | some u => [("uri", Json.str u)]
      | none => []) ++
     (match e.message with
      | some m => [("message", Json.str m)]
      | none => []))

/-- Source `sendError` (wamp.ts lines 320-321): the ERROR frame for an
invocation, with uri defaulted to wamp.error and the message (or the wrapped
error object) as the single args entry. -/
def invocationErrorMsg (invReqId : Int) (e : WErr) : List (Option Json) :=
  [some (Json.num 8), some (Json.num 68), some (Json.num invReqId),
   some (Json.obj []),
   some (Json.str (e.uri.getD "wamp.error")),
   some (Json.arr
     [match e.message with
      | some m => Json.str m
      | none => Json.obj [("error", errObjJson e)]])]

/-- The options object of a progressive YIELD (wamp.ts line 335). -/
def progressOpts : Json := Json.obj [("progress", Json.bool true)]

/-- The empty options object of a terminal YIELD. -/
def emptyOpts : Json := Json.obj []

/-- A YIELD message array before trimming (wamp.ts lines 335, 338, 347). -/
def yieldMsg (invReqId : Int) (opts : Json) (args dict : Option Json) :
    List (Option Json) :=
  [some (Json.num 70), some (Json.num invReqId), some opts, args, dict]

/-- The error thrown by the INTERRUPT listener (wamp.ts lines 325-328). -/
def cancelledErr : WErr :=
  ⟨some "wamp.error.cancelled", some "function call has been cancelled"⟩

/-- One event on the merged timeline an in-flight invocation reacts to: the
handler's observable emits a payload, completes, or fails, or an INTERRUPT
frame for the invocation request id arrives.  `takeUntil` on the interrupt
stream makes an interrupt end the handler subscription (its teardown runs)
and surface the cancelled error. -/
inductive InvEvent where
  | emit (args dict : Option Json)
  | complete
  | fail (e : WErr)
  | interrupt

/-- The outcome of driving one invocation: the encoded outbound frames in
send order, and whether the handler observable's subscription was disposed
(so its cleanup hook ran). -/
structure InvOutcome where
  frames : List (List Json)
  cleanupRan : Bool

/-- The progressive branch of the invocation runtime (wamp.ts lines
331-339): every payload is sent as a progressive YIELD; completion sends the
terminal YIELD without payload; an error or an interrupt sends the ERROR
frame.  Any terminal event disposes the handler subscription. -/
def runProgressive (invReqId : Int) : List InvEvent → InvOutcome
  | [] => ⟨[], false⟩
  | .emit a d :: rest =>
    let o := runProgressive invReqId rest
    ⟨encodeMsg (yieldMsg invReqId progressOpts a d) :: o.frames, o.cleanupRan⟩
  | .complete :: _ =>
    ⟨[encodeMsg (yieldMsg invReqId emptyOpts none none)], true⟩
  | .fail e :: _ =>
    ⟨[encodeMsg (invocationErrorMsg invReqId e)], true⟩
  | .interrupt :: _ =>
    ⟨[encodeMsg (invocationErrorMsg invReqId cancelledErr)], true⟩

/-- The non-progressive branch (wamp.ts lines 343-348):
`startWith([]).toPromise()` resolves with the last emitted payload (the
accumulator starts as the empty payload), and completion sends it as the one
YIELD; an error or an interrupt rejects the promise and sends the ERROR
frame. -/
def runNonProgressive (invReqId : Int) :
    List InvEvent → Option Json × Option Json → InvOutcome
  | [], _ => ⟨[], false⟩
  | .emit a d :: rest, _ => runNonProgressive invReqId rest (a, d)
  | .complete :: _, last =>
    ⟨[encodeMsg (yieldMsg invReqId emptyOpts last.1 last.2)], true⟩
  | .fail e :: _, _ =>
    ⟨[encodeMsg (invocationErrorMsg invReqId e)], true⟩
  | .interrupt :: _, _ =>
    ⟨[encodeMsg (invocationErrorMsg invReqId cancelledErr)], true⟩

/-- The invocation runtime, branching on `details.receive_progress`
(wamp.ts line 331). -/
def runInvocation (receiveProgress : Bool) (invReqId : Int)
    (events : List InvEvent) : InvOutcome :=
  if receiveProgress then runProgressive invReqId events
  else runNonProgressive invReqId events (none, none)

theorem runProgressive_append_emits (invReqId : Int)
    (ps : List (Option Json × Option Json)) (tail : List InvEvent) :
    runProgressive invReqId (ps.map (fun q => .emit q.1 q.2) ++ tail) =
      ⟨ps.map (fun q => encodeMsg (yieldMsg invReqId progressOpts q.1 q.2)) ++
        (runProgressive invReqId tail).frames,
       (runProgressive invReqId tail).cleanupRan⟩ := by
  induction ps with
  | nil => simp
  | cons q ps ih => simp [runProgressive, ih]

theorem runNonProgressive_emits (invReqId : Int) :
    ∀ (qs : List (Option Json × Option Json)) (acc : Option Json × Option Json),
      runNonProgressive invReqId (qs.map (fun q => .emit q.1 q.2) ++ [.complete]) acc =
        ⟨[encodeMsg (yieldMsg invReqId emptyOpts (qs.getLastD acc).1
            (qs.getLastD acc).2)], true⟩ := by
  intro qs
  induction qs with
  | nil => intro acc; simp [runNonProgressive]
  | cons q qs ih =>
    intro acc
    rw [List.getLastD_cons]
    simpa [runNonProgressive] using ih q

/-- Claim C2: in progressive mode every handler payload is sent as
YIELD(invReqId, progress true, args, dict) and completion sends the
three-element terminal YIELD; in non-progressive mode only the last payload
is sent as a single YIELD on completion, and a handler that completes
without emitting sends the terminal YIELD without payload. -/
theorem invocation_yield_frames
    (invReqId : Int) (ps qs : List (Option Json × Option Json))
    (p : Option Json × Option Json) :
    runInvocation true invReqId
        (ps.map (fun q => .emit q.1 q.2) ++ [.complete]) =
      ⟨ps.map (fun q => encodeMsg (yieldMsg invReqId progressOpts q.1 q.2)) ++
        [[Json.num 70, Json.num invReqId, emptyOpts]], true⟩ ∧
    runInvocation false invReqId [.complete] =
      ⟨[[Json.num 70, Json.num invReqId, emptyOpts]], true⟩ ∧
    runInvocation false invReqId
        ((qs ++ [p]).map (fun q => .emit q.1 q.2) ++ [.complete]) =
      ⟨[encodeMsg (yieldMsg invReqId emptyOpts p.1 p.2)], true⟩ := by
  have hterm : runProgressive invReqId [.complete] =
      ⟨[[Json.num 70, Json.num invReqId, emptyOpts]], true⟩ := by
    simp [runProgressive, encodeMsg, yieldMsg, trimArray, serializeElem,
      List.dropWhile]
  refine ⟨?_, ?_, ?_⟩
  · show runProgressive invReqId _ = _
    rw [runProgressive_append_emits, hterm]
  · show runNonProgressive invReqId _ _ = _
    simp [runNonProgressive, encodeMsg, yieldMsg, trimArray, serializeElem,
      List.dropWhile]
  · show runNonProgressive invReqId _ _ = _
    rw [runNonProgressive_emits]
    simp [List.getLastD_concat]

theorem runNonProgressive_interrupt (invReqId : Int) (rest : List InvEvent) :
    ∀ (pre : List (Option Json × Option Json)) (acc : Option Json × Option Json),
      runNonProgressive invReqId
          (pre.map (fun q => .emit q.1 q.2) ++ .interrupt :: rest) acc =
        ⟨[encodeMsg (invocationErrorMsg invReqId cancelledErr)], true⟩ := by
  intro pre
  induction pre with
  | nil => intro acc; simp [runNonProgressive]
  | cons q pre ih => intro acc; simpa [runNonProgressive] using ih q

/-- Claim C3: an INTERRUPT arriving for an in-flight invocation disposes the
handler subscription (its cleanup hook runs) and the runtime sends
ERROR(INVOCATION, invReqId, empty details, wamp.error.cancelled,
one-element args) as the terminal frame, in either mode; events after the
interrupt are ignored. -/
theorem interrupt_cancels_invocation
    (rp : Bool) (invReqId : Int)
    (pre : List (Option Json × Option Json)) (rest : List InvEvent) :
    runInvocation rp invReqId
        (pre.map (fun q => .emit q.1 q.2) ++ .interrupt :: rest) =
      ⟨(if rp then
          pre.map (fun q => encodeMsg (yieldMsg invReqId progressOpts q.1 q.2))
        else []) ++
        [encodeMsg (invocationErrorMsg invReqId cancelledErr)], true⟩ ∧
    encodeMsg (invocationErrorMsg invReqId cancelledErr) =
      [Json.num 8, Json.num 68, Json.num invReqId, Json.obj [],
       Json.str "wamp.error.cancelled",
       Json.arr [Json.str "function call has been cancelled"]] := by
  constructor
  · cases rp with
    | false =>
      show runNonProgressive invReqId _ _ = _
      simpa using runNonProgressive_interrupt invReqId rest pre (none, none)
    | true =>
      show runProgressive invReqId _ = _
      rw [runProgressive_append_emits]
      simp [runProgressive]
  · simp [encodeMsg, invocationErrorMsg, cancelledErr, trimArray,
      serializeElem, List.dropWhile]

/-- The key-to-consumer registry of rxdivide.ts (`divisions`): an ordered
association list mirroring a JavaScript object; keys are unique.  Consumers
are identified by numbers.  Assignment `divisions[key] = observer` replaces
an existing entry or appends a new one (rxdivide.ts line 60). -/
def divSet : List (Int × Nat) → Int → Nat → List (Int × Nat)
  | [], k, v => [(k, v)]
  | (k0, v0) :: rest, k, v =>
    if k0 = k then (k, v) :: rest else (k0, v0) :: divSet rest k v

/-- The consumer teardown `delete divisions[key]` (rxdivide.ts line 63):
removes the entry of the key unconditionally. -/
def divDelete : List (Int × Nat) → Int → List (Int × Nat)
  | [], _ => []
  | (k0, v0) :: rest, k =>
    if k0 = k then rest else (k0, v0) :: divDelete rest k

/-- Reading `divisions[key]` (rxdivide.ts line 39). -/
def divLookup : List (Int × Nat) → Int → Option Nat
  | [], _ => none
  | (k0, v0) :: rest, k => if k0 = k then some v0 else divLookup rest k

/-- The upstream next-handler of rxdivide.ts (lines 36-45): an arriving
item's key selects the registered consumer; when there is none the item is
dropped with a warning. -/
def divDeliver (reg : List (Int × Nat)) (key : Int) : Option Nat :=
  divLookup reg key

theorem divSet_fresh (k : Int) (v : Nat) :
    ∀ (reg : List (Int × Nat)), divLookup reg k = none →
      divSet reg k v = reg ++ [(k, v)] := by
  intro reg
  induction reg with
  | nil => intro _; rfl
  | cons kv rest ih =>
    intro h
    obtain ⟨k0, v0⟩ := kv
    by_cases hk : k0 = k
    · simp [divLookup, hk] at h
    · simp only [divLookup, if_neg hk] at h
      simp [divSet, hk, ih h]

theorem divSet_replace_end (k : Int) (a b : Nat) :
    ∀ (reg : List (Int × Nat)), divLookup reg k = none →
      divSet (reg ++ [(k, a)]) k b = reg ++ [(k, b)] := by
  intro reg
  induction reg with
  | nil => simp [divSet]
  | cons kv rest ih =>
    intro h
    obtain ⟨k0, v0⟩ := kv
    by_cases hk : k0 = k
    · simp [divLookup, hk] at h
    · simp only [divLookup, if_neg hk] at h
      simp [divSet, hk, ih h]

theorem divDelete_end (k : Int) (b : Nat) :
    ∀ (reg : List (Int × Nat)), divLookup reg k = none →
      divDelete (reg ++ [(k, b)]) k = reg := by
  intro reg
  induction reg with
  | nil => simp [divDelete]
  | cons kv rest ih =>
    intro h
    obtain ⟨k0, v0⟩ := kv
    by_cases hk : k0 = k
    · simp [divLookup, hk] at h
    · simp only [divLookup, if_neg hk] at h
      simp [divDelete, hk, ih h]

theorem divLookup_set_self (k : Int) (v : Nat) :
    ∀ (reg : List (Int × Nat)), divLookup (divSet reg k v) k = some v := by
  intro reg
  induction reg with
  | nil => simp [divSet, divLookup]
  | cons kv rest ih =>
    obtain ⟨k0, v0⟩ := kv
    by_cases hk : k0 = k
    · simp [divSet, divLookup, hk]
    · simp [divSet, divLookup, hk, ih]

/-- Claim C9: registering a second consumer for a key a first consumer holds
overwrites the registry entry; when the first consumer then unsubscribes,
its teardown deletes the entry outright, so the key is left with no
registered consumer and items for it are no longer delivered to the second
consumer. -/
theorem overwritten_consumer_teardown_orphans_key
    (reg : List (Int × Nat)) (k : Int) (a b : Nat)
    (hfresh : divLookup reg k = none) :
    divLookup (divSet (divSet reg k a) k b) k = some b ∧
    divDeliver (divDelete (divSet (divSet reg k a) k b) k) k = none := by
  have h1 : divSet reg k a = reg ++ [(k, a)] := divSet_fresh k a reg hfresh
  have h2 : divSet (reg ++ [(k, a)]) k b = reg ++ [(k, b)] :=
    divSet_replace_end k a b reg hfresh
  refine ⟨?_, ?_⟩
  · rw [h1, divLookup_set_self]
  · rw [h1, h2, divDelete_end k b reg hfresh]
    exact hfresh

theorem overwritten_consumer_teardown_orphans_key_witness :
    divLookup ([] : List (Int × Nat)) 5 = none ∧
    (divLookup (divSet (divSet [] 5 3) 5 4) 5 = some 4 ∧
     divDeliver (divDelete (divSet (divSet [] 5 3) 5 4) 5) 5 = none) :=
  ⟨rfl, overwritten_consumer_teardown_orphans_key [] 5 3 4 rfl⟩

/-- The terminal signal a child stream receives when the upstream ends. -/
inductive ChildEnd (ε : Type) where
  | completed : ChildEnd ε
  | failed (e : ε) : ChildEnd ε
deriving Repr, DecidableEq

/-- The signal `completeAll` forwards: with no upstream error every child is
completed, with an error every child receives that same cause
(rxdivide.ts lines 21-27). -/
def childEndOf {ε : Type} (e : Option ε) : ChildEnd ε :=
  match e with
  | none => ChildEnd.completed
  | some x => ChildEnd.failed x

/-- The loop of `completeAll` (rxdivide.ts lines 20-30), instrumented: it
iterates over the registered children in order; notifying a child
synchronously runs that child's teardown, which deletes its own key from the
live registry.  Each step records the notified consumer, the received
signal, and the registry contents at the moment of notification.  The first
list argument is the iteration worklist, the second the live registry. -/
def completeAllSteps {ε : Type} (e : Option ε) :
    List (Int × Nat) → List (Int × Nat) →
      List (Nat × ChildEnd ε × List (Int × Nat))
  | [], _ => []
  | (k, c) :: rest, cur =>
    (c, childEndOf e, cur) :: completeAllSteps e rest (divDelete cur k)

/-- Source `completeAll`: run the notification loop over the whole registry,
then reassign the registry to the empty object. -/
def completeAllRun {ε : Type} (e : Option ε) (reg : List (Int × Nat)) :
    List (Nat × ChildEnd ε × List (Int × Nat)) × List (Int × Nat) :=
  (completeAllSteps e reg reg, [])

theorem completeAllSteps_signals {ε : Type} (e : Option ε) :
    ∀ (rest cur : List (Int × Nat)),
      (completeAllSteps e rest cur).map (fun s => (s.1, s.2.1)) =
        rest.map (fun kc => (kc.2, childEndOf e)) := by
  intro rest
  induction rest with
  | nil => intro cur; rfl
  | cons kc rest ih =>
    intro cur
    obtain ⟨k, c⟩ := kc
    simp [completeAllSteps, ih]

/-- Claim C6 counterexample: with a single registered child (key 5, consumer
0) and a completing upstream, the child is notified while the registry still
contains its entry, so the registry is not cleared before propagation, and
the child's re-entrant teardown changes the registry instead of being a
no-op. -/
theorem registry_not_cleared_before_propagation :
    (completeAllRun (none : Option Nat) [(5, 0)]).1 =
      [(0, ChildEnd.completed, [(5, 0)])] ∧
    divDelete [(5, 0)] 5 ≠ [(5, 0)] := by
  exact ⟨rfl, by decide⟩

/-- Claim C6 amended: when the upstream completes every active child
completes, and when it fails every child fails with the same cause; the
registry is empty once `completeAll` returns.  The clearing happens after
the propagation loop: the first child is notified while the registry still
holds the full entry list, and each child's re-entrant teardown deletes that
child's own entry from the live registry. -/
theorem upstream_end_propagates_to_all_children {ε : Type} (e : Option ε)
    (reg : List (Int × Nat)) (k : Int) (c : Nat) :
    (completeAllRun e reg).1.map (fun s => (s.1, s.2.1)) =
      reg.map (fun kc => (kc.2, childEndOf e)) ∧
    (completeAllRun e reg).2 = [] ∧
    (completeAllRun e ((k, c) :: reg)).1.head? =
      some (c, childEndOf e, (k, c) :: reg) := by
  exact ⟨completeAllSteps_signals e reg reg, rfl, rfl⟩

/-- A message awaited during the handshake: the merge of the WELCOME,
CHALLENGE and ABORT streams (wamp.ts lines 227-232). -/
inductive HsMsg where
  | welcome (sessionId : Int) (details : Json)
  | challenge (method : String) (extra : Json)
  | abort (details : Json) (reason : String)

/-- A challenge responder result (wamp.ts `ChallengeResponse`): a signature
string alone, or a signature paired with an extra dictionary. -/
inductive ChallengeRsp where
  | sig (s : String)
  | sigDict (s : String) (d : Json)

/-- The configured authentication (wamp.ts `LoginAuth`). -/
structure LoginAuth where
  authid : String
  authmethods : List String
  challenge : String → Json → ChallengeRsp

/-- The AUTHENTICATE message array (wamp.ts lines 244 and 251). -/
def authenticateMsg (sg : String) (d : Json) : List (Option Json) :=
  [some (Json.num 5), some (Json.str sg), some d]

/-- The AUTHENTICATE frame the handshake sends in reply to one challenge
(wamp.ts lines 242-252): a plain string signature is sent with an empty
dictionary, an array result is spread into signature and dictionary. -/
def challengeReplyFrame (a : LoginAuth) (method : String) (extra : Json) :
    List Json :=
  match a.challenge method extra with
  | .sig s => encodeMsg (authenticateMsg s (Json.obj []))
  | .sigDict s d => encodeMsg (authenticateMsg s d)

/-- The outcome of the handshake loop. -/
inductive HsOutcome where
  | established (sessionId : Int)
  | unexpectedChallenge
  | aborted (details : Json) (reason : String)
  | stillWaiting

/-- The handshake loop of `createWampChannelFromWs` (wamp.ts lines 233-253):
each iteration awaits the next WELCOME, CHALLENGE or ABORT frame.  WELCOME
ends the loop; ABORT throws its details and reason; a CHALLENGE without
configured authentication throws the unexpected-challenge error; a CHALLENGE
with authentication invokes the responder and sends the AUTHENTICATE reply,
then loops.  Returns the encoded AUTHENTICATE frames sent, in order, and the
outcome; an exhausted input list means the loop is still awaiting a frame. -/
def handshakeLoop (auth : Option LoginAuth) :
    List HsMsg → List (List Json) × HsOutcome
  | [] => ([], .stillWaiting)
  | .welcome sid _ :: _ => ([], .established sid)
  | .abort d r :: _ => ([], .aborted d r)
  | .challenge method extra :: rest =>
    match auth with
    | none => ([], .unexpectedChallenge)
    | some a =>
      let k := handshakeLoop auth rest
      (challengeReplyFrame a method extra :: k.1, k.2)

theorem handshakeLoop_challenges (a : LoginAuth) :
    ∀ (chals : List (String × Json)) (tail : List HsMsg),
      handshakeLoop (some a)
          (chals.map (fun p => .challenge p.1 p.2) ++ tail) =
        (chals.map (fun p => challengeReplyFrame a p.1 p.2) ++
          (handshakeLoop (some a) tail).1,
         (handshakeLoop (some a) tail).2) := by
  intro chals
  induction chals with
  | nil => intro tail; simp
  | cons p chals ih =>
    intro tail
    simp [handshakeLoop, ih]

/-- Claim C8: a CHALLENGE with no configured authentication fails the
handshake with the unexpected-challenge outcome; with authentication every
CHALLENGE invokes the responder with its method and extra, a string result
is sent as AUTHENTICATE(sig, empty dict) and a pair result as
AUTHENTICATE(sig, dict), and the loop then again awaits WELCOME, CHALLENGE
or ABORT, so any number of challenges is handled before the terminal
WELCOME or ABORT. -/
theorem challenge_handling
    (a : LoginAuth) (chals : List (String × Json)) (sid : Int)
    (d dA : Json) (rA m : String) (x : Json) (rest : List HsMsg) :
    handshakeLoop none (.challenge m x :: rest) =
      ([], .unexpectedChallenge) ∧
    challengeReplyFrame a m x =
      (match a.challenge m x with
       | .sig s => [Json.num 5, Json.str s, Json.obj []]
       | .sigDict s dd => [Json.num 5, Json.str s, dd]) ∧
    handshakeLoop (some a)
        (chals.map (fun p => .challenge p.1 p.2) ++ [.welcome sid d]) =
      (chals.map (fun p => challengeReplyFrame a p.1 p.2),
       .established sid) ∧
    handshakeLoop (some a)
        (chals.map (fun p => .challenge p.1 p.2) ++ [.abort dA rA]) =
      (chals.map (fun p => challengeReplyFrame a p.1 p.2),
       .aborted dA rA) := by
  refine ⟨rfl, ?_, ?_, ?_⟩
  · unfold challengeReplyFrame
    cases a.challenge m x <;>
      simp [encodeMsg, authenticateMsg, trimArray, serializeElem,
        List.dropWhile]
  · rw [handshakeLoop_challenges]
    simp [handshakeLoop]
  · rw [handshakeLoop_challenges]
    simp [handshakeLoop]

end WampRx
